import Mathlib

/-!
Shallow embedding of the momentic_dev signal engine.

Sources embedded:
* `src/src/utils/math.py` — math kernels (moving average, sigmoid, percentage
  change, logistic spread, daily returns, rolling std, annualized volatility,
  drawdown vs peak).
* `src/src/analytics/risk_metrics.py` — realized volatility, drawdowns, cooldown.
* `src/src/analytics/calculate_indicators.py` — feature builder helpers.
* `src/src/orchestration/signal_engine.py` — gating, sizing, conflict
  resolution, cash weight, snapshot selection.

Conventions: Python floats are modelled as `ℚ` wherever the code only does
field arithmetic and comparisons, and as `ℝ` where `math.exp` / `math.sqrt`
enter (sigmoid, standard deviation).  Python functions that `raise` are
modelled in `Except String`; values that can be `None` are `Option`.
Dates are modelled as naturals (only their ordering ever matters).
-/

namespace Momentic

/-! ## Math kernels (`src/src/utils/math.py`) -/

/-- `sigmoid(x) = 1 / (1 + exp(-x))` (`math.py`, line 36). -/
noncomputable def sigmoid (x : ℝ) : ℝ := 1 / (1 + Real.exp (-x))

/-- `percentage_change(current, previous)` (`math.py`, line 41): raises
`ZeroDivisionError` when `previous == 0`, else `(current - previous)/previous`. -/
def percentage_change (current previous : ℚ) : Except String ℚ :=
  if previous = 0 then
    .error "previous value must be non-zero for normalized velocity"
  else
    .ok ((current - previous) / previous)

/-- `logistic_spread_scaled(n, m, k)` (`math.py`, line 52): raises when
`m == 0 or k == 0`, else `sigmoid((n - m) / (m * k))`. -/
noncomputable def logistic_spread_scaled (numerator denominator scale : ℚ) :
    Except String ℝ :=
  if denominator = 0 ∨ scale = 0 then
    .error "denominator and scale must be non-zero"
  else
    .ok (sigmoid (((numerator - denominator) / (denominator * scale) : ℚ) : ℝ))

/-- `clamp(value, lower, upper)` (`math.py`, line 70): `max(lower, min(value, upper))`. -/
def clamp (value lower upper : ℚ) : ℚ := max lower (min value upper)

/-- `daily_returns(prices)` (`math.py`, line 75): simple returns with a
`0.0` fallback when the previous price is zero.  The Python loop pairs
`prices[idx-1]` with `prices[idx]` for `idx = 1 .. len-1`, which is exactly
`prices.zip prices.tail`. -/
def daily_returns (prices : List ℚ) : List ℚ :=
  (prices.zip prices.tail).map fun pair =>
    if pair.1 = 0 then 0 else pair.2 / pair.1 - 1

/-- One iteration of the `moving_average` loop (`math.py`, lines 26-32):
append the price to the buffer, add it to the rolling sum, and pop the
oldest entry when the buffer exceeds the window. -/
def maStep (window : ℕ) (buffer : List ℚ) (rollingSum : ℚ) (price : ℚ) :
    List ℚ × ℚ :=
  let buf1 := buffer ++ [price]
  let sum1 := rollingSum + price
  if window < buf1.length then (buf1.tail, sum1 - buf1.headI) else (buf1, sum1)

/-- The `moving_average` accumulation loop (`math.py`, lines 22-33): emits
`rolling_sum / window` once the buffer is full, `None` before that. -/
def maLoop (window : ℕ) (buffer : List ℚ) (rollingSum : ℚ) :
    List (ℕ × ℚ) → List (ℕ × Option ℚ)
  | [] => []
  | (d, p) :: rest =>
    let st := maStep window buffer rollingSum p
    let avg := if st.1.length = window then some (st.2 / (window : ℚ)) else none
    (d, avg) :: maLoop window st.1 st.2 rest

/-- `moving_average(series, window)` (`math.py`, line 10): `ValueError` when
`window <= 0`, else the running-sum loop over the dated series. -/
def moving_average (series : List (ℕ × ℚ)) (window : ℤ) :
    Except String (List (ℕ × Option ℚ)) :=
  if window ≤ 0 then .error "window must be a positive integer"
  else if series = [] then .ok []
  else .ok (maLoop window.toNat [] 0 series)

/-- One iteration of the `rolling_std` loop (`math.py`, lines 94-101): slide
the buffer and, once it holds `window` values, emit the population standard
deviation. -/
noncomputable def rollingStdLoop (window : ℕ) (buffer : List ℚ) :
    List ℚ → List ℝ
  | [] => []
  | v :: rest =>
    let buf1 := buffer ++ [v]
    let buf2 := if window < buf1.length then buf1.tail else buf1
    let out := rollingStdLoop window buf2 rest
    if buf2.length = window then
      let mean := buf2.sum / (window : ℚ)
      let variance := (buf2.map fun x => (x - mean) ^ 2).sum / (window : ℚ)
      Real.sqrt (variance : ℝ) :: out
    else out

/-- `rolling_std(values, window)` (`math.py`, line 88): `ValueError` when
`window <= 0`, else the windowed standard deviations. -/
noncomputable def rolling_std (values : List ℚ) (window : ℤ) :
    Except String (List ℝ) :=
  if window ≤ 0 then .error "window must be positive"
  else .ok (rollingStdLoop window.toNat [] values)

/-- `annualized_volatility(prices, window, trading_days)` (`math.py`,
line 105): `0.0` when there are fewer than `window` returns, else the most
recent rolling standard deviation scaled by `sqrt(trading_days)`. -/
noncomputable def annualized_volatility (prices : List ℚ) (window : ℤ)
    (trading_days : ℕ) : Except String ℝ :=
  let returns := daily_returns prices
  if (returns.length : ℤ) < window then .ok 0
  else
    match rolling_std returns window with
    | .error e => .error e
    | .ok std_values =>
      if std_values = [] then .ok 0
      else .ok (std_values.getLastD 0 * Real.sqrt (trading_days : ℝ))

/-- The `drawdown_vs_peak` loop (`math.py`, lines 120-122).  The running
peak starts at `float("-inf")`, modelled as `⊥ : WithBot ℚ`; the division
only happens in the `peak > 0` branch, where the peak is a genuine rational
(extracted with `unbot' 0`). -/
def ddLoop (peak : WithBot ℚ) : List ℚ → List ℚ
  | [] => []
  | v :: rest =>
    let peak1 := max peak (v : WithBot ℚ)
    let d := if 0 < peak1 then v / peak1.unbot' 0 - 1 else 0
    d :: ddLoop peak1 rest

/-- `drawdown_vs_peak(values)` (`math.py`, line 116). -/
def drawdown_vs_peak (values : List ℚ) : List ℚ := ddLoop ⊥ values

/-- The running peak at position `i` as the spec describes it: the maximum of
the first `i + 1` values, tracked from the start of the series (starting at
`-inf`, i.e. `⊥`). -/
def runningPeak (values : List ℚ) (i : ℕ) : WithBot ℚ :=
  (values.take (i + 1)).foldl (fun (a : WithBot ℚ) (v : ℚ) => max a (v : WithBot ℚ)) ⊥

/-! ## Risk metrics (`src/src/analytics/risk_metrics.py`) -/

/-- `realized_volatility(prices, window=63)` (`risk_metrics.py`, line 11):
`0.0` when fewer than `window + 1` prices, else delegate. -/
noncomputable def realized_volatility (prices : List ℚ) (window : ℤ) :
    Except String ℝ :=
  if (prices.length : ℤ) < window + 1 then .ok 0
  else annualized_volatility prices window 252

/-- `drawdowns(prices)` (`risk_metrics.py`, line 23): empty in, empty out,
else delegate to `drawdown_vs_peak`. -/
def drawdowns (prices : List ℚ) : List ℚ :=
  if prices = [] then [] else drawdown_vs_peak prices

/-- `cooldown_active(dates, last_stop_idx, cooldown_days)`
(`risk_metrics.py`, line 47): `(False, 0)` when no stop (or no dates), else
`days_since = len(dates) - (last_stop_idx + 1)` and active iff
`days_since < cooldown_days`. -/
def cooldown_active (dates : List ℕ) (last_stop_idx : Option ℕ)
    (cooldown_days : ℤ) : Bool × ℤ :=
  match last_stop_idx with
  | none => (false, 0)
  | some k =>
    if dates = [] then (false, 0)
    else
      let days_since : ℤ := (dates.length : ℤ) - (k + 1)
      (decide (days_since < cooldown_days), days_since)

/-! ## Feature builder (`src/src/analytics/calculate_indicators.py`) -/

/-- `_logistic_spread(a, b, scale)` (`calculate_indicators.py`, line 136):
`None` when either moving average is absent or the guard fires, else
`logistic_spread_scaled` (whose error branch is unreachable after the guard,
hence `toOption`). -/
noncomputable def _logistic_spread (a b : Option ℚ) (scale : ℚ) : Option ℝ :=
  match a, b with
  | some a, some b =>
    if b = 0 ∨ scale = 0 then none
    else (logistic_spread_scaled a b scale).toOption
  | _, _ => none

/-- `_logistic_return(closes, index, lookback, scale)`
(`calculate_indicators.py`, line 143): `sigmoid` of the scaled relative
change over `lookback` positions, `None` with insufficient history or a zero
base close. -/
noncomputable def _logistic_return (closes : List (ℕ × ℚ)) (index lookback : ℕ)
    (scale : ℚ) : Option ℝ :=
  if index < lookback then none
  else
    let past_close := (closes.getD (index - lookback) (0, 0)).2
    if past_close = 0 ∨ scale = 0 then none
    else
      let relative_change := ((closes.getD index (0, 0)).2 - past_close) / past_close
      some (sigmoid ((relative_change / scale : ℚ) : ℝ))

/-- `_momentum_positive_bonus(closes, index, lookback, scale)`
(`calculate_indicators.py`, line 159): needs two full lookback periods,
guards the two division bases, then floors `(sigmoid(Δ/scale) - 0.5) * 2`
at zero.  The two `percentage_change` calls cannot raise after the guard,
so the catch-all match arm is unreachable. -/
noncomputable def _momentum_positive_bonus (closes : List (ℕ × ℚ))
    (index lookback : ℕ) (scale : ℚ) : Option ℝ :=
  if index < lookback * 2 ∨ scale = 0 then none
  else
    let current_close := (closes.getD index (0, 0)).2
    let prev_close := (closes.getD (index - lookback) (0, 0)).2
    let earlier_close := (closes.getD (index - lookback) (0, 0)).2
    let earlier_prev_close := (closes.getD (index - lookback * 2) (0, 0)).2
    if prev_close = 0 ∨ earlier_prev_close = 0 then none
    else
      match percentage_change current_close prev_close,
          percentage_change earlier_close earlier_prev_close with
      | .ok current_return, .ok previous_return =>
        let momentum_change := (current_return - previous_return) / scale
        let score := (sigmoid ((momentum_change : ℚ) : ℝ) - 0.5) * 2
        some (max score 0)
      | _, _ => none

/-- `_long_term_down(logistic_spread)` (`calculate_indicators.py`, line 189):
`1` when the 50-vs-280 spread is below `0.5`, `0` otherwise, blank when the
spread is missing. -/
noncomputable def _long_term_down (spread : Option ℝ) : Option ℤ :=
  match spread with
  | none => none
  | some s => some (if s < 0.5 then 1 else 0)

/-- `_complement(value)` (`calculate_indicators.py`, line 201): `1 - value`
when numeric, otherwise blank. -/
def _complement (value : Option ℝ) : Option ℝ :=
  match value with
  | some v => some (1 - v)
  | none => none

/-- The complement-pair invariant of a feature column: the complement is
present exactly when the base value is, and present pairs sum to `1`. -/
def complementPair (value complement : Option ℝ) : Prop :=
  (complement.isSome ↔ value.isSome) ∧
  ∀ a b, value = some a → complement = some b → a + b = 1

/-- One output row of the feature builder (`FEATURE_HEADER`,
`calculate_indicators.py`, lines 19-34).  Blank CSV cells are `none`. -/
structure FeatureRow where
  date : ℕ
  close : ℚ
  ma_50 : Option ℚ
  ma_120 : Option ℚ
  ma_280 : Option ℚ
  logistic_ma_spread_50_120 : Option ℝ
  logistic_ma_spread_50_280 : Option ℝ
  logistic_return_scaled_21 : Option ℝ
  momentum_positive_bonus : Option ℝ
  logistic_ma_spread_50_120_complement : Option ℝ
  logistic_ma_spread_50_280_complement : Option ℝ
  logistic_return_scaled_21_complement : Option ℝ
  momentum_positive_bonus_complement : Option ℝ
  long_term_down : Option ℤ

/-- `_build_feature_row(closes, index, ma_by_window)`
(`calculate_indicators.py`, line 83), with the three moving-average series
passed separately (the Python dict keyed by 50/120/280) and the constants
`LOGISTIC_K1 = 0.05`, `LOGISTIC_K2 = 0.08`, `VELOCITY_LOOKBACK = 21`,
`VELOCITY_SCALE = 0.07`, `MOMENTUM_SCALE = 0.10` inlined. -/
noncomputable def _build_feature_row (closes : List (ℕ × ℚ)) (index : ℕ)
    (ma50s ma120s ma280s : List (ℕ × Option ℚ)) : FeatureRow :=
  let ma50 := (ma50s.getD index (0, none)).2
  let ma120 := (ma120s.getD index (0, none)).2
  let ma280 := (ma280s.getD index (0, none)).2
  let logistic_50_120 := _logistic_spread ma50 ma120 (5 / 100)
  let logistic_50_280 := _logistic_spread ma50 ma280 (8 / 100)
  let logistic_return := _logistic_return closes index 21 (7 / 100)
  let momentum_bonus := _momentum_positive_bonus closes index 21 (10 / 100)
  { date := (closes.getD index (0, 0)).1
    close := (closes.getD index (0, 0)).2
    ma_50 := ma50
    ma_120 := ma120
    ma_280 := ma280
    logistic_ma_spread_50_120 := logistic_50_120
    logistic_ma_spread_50_280 := logistic_50_280
    logistic_return_scaled_21 := logistic_return
    momentum_positive_bonus := momentum_bonus
    logistic_ma_spread_50_120_complement := _complement logistic_50_120
    logistic_ma_spread_50_280_complement := _complement logistic_50_280
    logistic_return_scaled_21_complement := _complement logistic_return
    momentum_positive_bonus_complement := _complement momentum_bonus
    long_term_down := _long_term_down logistic_50_280 }

/-! ## Signal engine (`src/src/orchestration/signal_engine.py`) -/

/-- Volatility regime label (`signal_engine.py`, line 96). -/
inductive Regime where
  | LOW_VOL
  | HIGH_VOL
deriving DecidableEq

/-- Per-regime entry thresholds (`settings["entry_thresholds"][regime]`). -/
structure EntryThresholds where
  long : ℚ
  short : ℚ

/-- `_apply_gates(score_up, score_dn, regime, long_term_down,
cooldown_active, thresholds, exit_threshold)` (`signal_engine.py`,
line 267).  `long_term_down` is a Python int used for truthiness, hence the
`≠ 0` test.  Returns `(take_long, take_short)`. -/
def _apply_gates (score_up score_dn : ℚ) (regime : Regime)
    (long_term_down : ℤ) (cooldown : Bool)
    (thresholds : EntryThresholds) (exit_threshold : ℚ) : Bool × Bool :=
  let take_long := decide (thresholds.long ≤ score_up)
  let take_long :=
    if regime = .HIGH_VOL ∧ score_up < 70 / 100 then false else take_long
  let take_short := decide (thresholds.short ≤ score_dn)
  let take_short :=
    if regime = .HIGH_VOL ∧ ¬(long_term_down ≠ 0 ∨ 80 / 100 ≤ score_dn) then
      false
    else take_short
  let take_long :=
    if take_long = true ∧ score_up < exit_threshold then false else take_long
  let take_short :=
    if take_short = true ∧ score_dn < exit_threshold then false else take_short
  if cooldown then (false, false) else (take_long, take_short)

/-- The third component `_size_positions` returns (`signal_engine.py`,
lines 303/309): either the "σ63 unavailable" note or the formatted
realized-volatility note (its float formatting is presentation-only; the
carried volatility is kept). -/
inductive VolNote where
  | unavailable
  | sigma63 (vol : ℚ)
deriving DecidableEq

/-- `_size_positions(vol_today, regime, take_long, take_short, target_vol)`
(`signal_engine.py`, line 293): `asset_vol = vol_today * 3`; zero weights
when `asset_vol <= 0`; else `weight = min(target_vol / asset_vol, 1.0)`,
halved in `HIGH_VOL`, assigned per flag. -/
def _size_positions (vol_today : ℚ) (regime : Regime)
    (take_long take_short : Bool) (target_vol : ℚ) : ℚ × ℚ × VolNote :=
  let asset_vol := vol_today * 3
  if asset_vol ≤ 0 then (0, 0, .unavailable)
  else
    let weight := min (target_vol / asset_vol) 1
    let weight := if regime = .HIGH_VOL then weight * (5 / 10) else weight
    (if take_long then weight else 0, if take_short then weight else 0,
      .sigma63 vol_today)

/-- `_resolve_conflict(long_weight, short_weight, margin_long, margin_short)`
(`signal_engine.py`, line 312): when both weights are positive, zero the
side with the smaller margin (ties keep the long side). -/
def _resolve_conflict (long_weight short_weight margin_long margin_short : ℚ) :
    ℚ × ℚ :=
  if long_weight > 0 ∧ short_weight > 0 then
    if margin_long ≥ margin_short then (long_weight, 0) else (0, short_weight)
  else (long_weight, short_weight)

/-- The weight-resolution tail of `run_signal_engine` (`signal_engine.py`,
lines 114-128): size positions, resolve the conflict, and derive
`cash_weight = clamp(1 - (long + short), 0, 1)`.  Returns
`(long_weight, short_weight, cash_weight)`. -/
def resolved_weights (vol_today : ℚ) (regime : Regime)
    (take_long take_short : Bool)
    (target_vol margin_long margin_short : ℚ) : ℚ × ℚ × ℚ :=
  let sized := _size_positions vol_today regime take_long take_short target_vol
  let resolved := _resolve_conflict sized.1 sized.2.1 margin_long margin_short
  let cash_weight := clamp (1 - (resolved.1 + resolved.2)) 0 1
  (resolved.1, resolved.2, cash_weight)

/-- Snapshot selection inside `run_signal_engine` (`signal_engine.py`,
lines 64-94), abstracted over the row payload `α`: take the latest available
date (Python `max` raises on an empty sequence, hence the error), reject a
requested date beyond it, keep rows on or before the target, sort by date
(Python's stable `list.sort(key=date)`), and use the last row. -/
def select_snapshot {α : Type} (dated_rows : List (ℕ × α))
    (signal_date : Option ℕ) : Except String (ℕ × α) :=
  match (dated_rows.map Prod.fst).max? with
  | none => .error "max() arg is an empty sequence"
  | some latest_available =>
    let check : Except String ℕ :=
      match signal_date with
      | some target_date =>
        if latest_available < target_date then
          .error "Requested date exceeds latest available"
        else .ok target_date
      | none => .ok latest_available
    match check with
    | .error e => .error e
    | .ok target_date =>
      match dated_rows.filter fun pair => pair.1 ≤ target_date with
      | [] => .error "No data available on or before requested date."
      | x :: xs => .ok (((x :: xs).mergeSort fun a b => a.1 ≤ b.1).getLastD x)

end Momentic

/-- Sanity example: the spec example for cooldown (10 dates, breach at index 5,
cooldown 3 days ⇒ 4 days since, inactive). -/
example : Momentic.cooldown_active (List.range 10) (some 5) 3 = (false, 4) := by
  decide

/-- C5: with no stop breach `cooldown_active` returns `(inactive, 0)`; with the
most recent breach at a valid index `k` of `n` dated points it reports
`days_since = n - (k + 1)` and is active exactly when `days_since` is below
`cooldown_days`. -/
theorem cooldown_active_spec (dates : List ℕ) (k : ℕ) (d : ℤ)
    (hk : k < dates.length) :
    Momentic.cooldown_active dates none d = (false, 0) ∧
    (Momentic.cooldown_active dates (some k) d).2 =
      (dates.length : ℤ) - (k + 1) ∧
    ((Momentic.cooldown_active dates (some k) d).1 = true ↔
      (dates.length : ℤ) - (k + 1) < d) := by
  have hne : dates ≠ [] := by
    intro h
    simp [h] at hk
  refine ⟨rfl, ?_, ?_⟩ <;> simp [Momentic.cooldown_active, hne]

/-- Witness for C5 at the spec's example: 10 dates, breach at index 5,
cooldown 3 ⇒ 4 days since the stop, cooldown inactive. -/
theorem cooldown_active_spec_witness :
    (Momentic.cooldown_active (List.range 10) (some 5) 3).2 =
      ((List.range 10).length : ℤ) - (5 + 1) ∧
    ((Momentic.cooldown_active (List.range 10) (some 5) 3).1 = true ↔
      ((List.range 10).length : ℤ) - (5 + 1) < 3) :=
  (cooldown_active_spec (List.range 10) 5 3 (by decide)).2

/-- C3: `_resolve_conflict` never leaves both weights positive; when both
incoming weights are positive it keeps exactly the side with the larger
margin (`score - threshold`), zeroing the other, with ties keeping long. -/
theorem resolve_conflict_spec (lw sw ml ms : ℚ) :
    ¬(0 < (Momentic._resolve_conflict lw sw ml ms).1 ∧
        0 < (Momentic._resolve_conflict lw sw ml ms).2) ∧
    (0 < lw → 0 < sw →
      (ms ≤ ml → Momentic._resolve_conflict lw sw ml ms = (lw, 0)) ∧
      (ml < ms → Momentic._resolve_conflict lw sw ml ms = (0, sw))) := by
  unfold Momentic._resolve_conflict
  split_ifs with hboth hmargin
  · exact ⟨by simp, fun _ _ => ⟨fun _ => rfl, fun hlt => absurd hmargin (not_le.mpr hlt)⟩⟩
  · exact ⟨by simp, fun _ _ => ⟨fun hle => absurd hle hmargin, fun _ => rfl⟩⟩
  · refine ⟨fun hcontra => hboth ⟨hcontra.1, hcontra.2⟩,
      fun hl hs => absurd ⟨hl, hs⟩ hboth⟩

/-- Witness for C3: both sides positive with equal margins keeps the long
side and zeroes the short side. -/
theorem resolve_conflict_spec_witness :
    Momentic._resolve_conflict 1 1 0 0 = (1, 0) :=
  ((resolve_conflict_spec 1 1 0 0).2 one_pos one_pos).1 le_rfl

/-- C2: necessary conditions for the gate flags.  `take_long` is true only if
`score_up` passes the regime's long entry threshold and the exit threshold,
the regime is LOW_VOL or `score_up ≥ 0.70`, and cooldown is off; `take_short`
is true only if `score_dn` passes its entry and exit thresholds, the regime is
LOW_VOL or the long-term-down flag is set or `score_dn ≥ 0.80`, and cooldown
is off.  An active cooldown forces both flags false. -/
theorem apply_gates_spec (su sd : ℚ) (regime : Momentic.Regime) (ltd : ℤ)
    (cooldown : Bool) (thr : Momentic.EntryThresholds) (exitThr : ℚ) :
    ((Momentic._apply_gates su sd regime ltd cooldown thr exitThr).1 = true →
      thr.long ≤ su ∧ exitThr ≤ su ∧
      (regime = .LOW_VOL ∨ 70 / 100 ≤ su) ∧ cooldown = false) ∧
    ((Momentic._apply_gates su sd regime ltd cooldown thr exitThr).2 = true →
      thr.short ≤ sd ∧ exitThr ≤ sd ∧
      (regime = .LOW_VOL ∨ ltd ≠ 0 ∨ 80 / 100 ≤ sd) ∧ cooldown = false) ∧
    (cooldown = true →
      Momentic._apply_gates su sd regime ltd cooldown thr exitThr =
        (false, false)) := by
  cases cooldown with
  | true => simp [Momentic._apply_gates]
  | false =>
    cases regime with
    | LOW_VOL =>
      refine ⟨?_, ?_, by simp⟩ <;>
        · simp only [Momentic._apply_gates]
          split_ifs <;> simp_all [not_lt]
    | HIGH_VOL =>
      refine ⟨?_, ?_, by simp⟩ <;>
        · simp only [Momentic._apply_gates]
          split_ifs <;> simp_all [not_lt] <;> tauto

/-- Witness for C2: under an active cooldown the gates come out
`(false, false)` even when every score clears every threshold. -/
theorem apply_gates_spec_witness :
    Momentic._apply_gates 1 1 .LOW_VOL 1 true ⟨0, 0⟩ 0 = (false, false) :=
  (apply_gates_spec 1 1 .LOW_VOL 1 true ⟨0, 0⟩ 0).2.2 rfl

/-- Both weights `_resolve_conflict` returns stay within `[0, 1]` in sum,
provided each incoming weight is within `[0, 1]` (helper for C1). -/
lemma resolve_conflict_sum_bounds {l s : ℚ} (hl0 : 0 ≤ l) (hl1 : l ≤ 1)
    (hs0 : 0 ≤ s) (hs1 : s ≤ 1) (ml ms : ℚ) :
    0 ≤ (Momentic._resolve_conflict l s ml ms).1 +
        (Momentic._resolve_conflict l s ml ms).2 ∧
      (Momentic._resolve_conflict l s ml ms).1 +
        (Momentic._resolve_conflict l s ml ms).2 ≤ 1 := by
  unfold Momentic._resolve_conflict
  split_ifs with hboth hmargin
  · exact ⟨by simpa using hl0, by simpa using hl1⟩
  · exact ⟨by simpa using hs0, by simpa using hs1⟩
  · push_neg at hboth
    rcases le_or_lt l 0 with hl | hl
    · constructor <;> simp <;> linarith
    · have hs := hboth hl
      constructor <;> simp <;> linarith

/-- The sized long and short weights are each within `[0, 1]` whenever the
configured target volatility is nonnegative (helper for C1). -/
lemma size_positions_bounds (vol : ℚ) (regime : Momentic.Regime)
    (tl ts : Bool) {tv : ℚ} (htv : 0 ≤ tv) :
    0 ≤ (Momentic._size_positions vol regime tl ts tv).1 ∧
      (Momentic._size_positions vol regime tl ts tv).1 ≤ 1 ∧
      0 ≤ (Momentic._size_positions vol regime tl ts tv).2.1 ∧
      (Momentic._size_positions vol regime tl ts tv).2.1 ≤ 1 := by
  by_cases hav : vol * 3 ≤ 0
  · simp [Momentic._size_positions, hav]
  · have h3 : (0 : ℚ) < vol * 3 := not_le.mp hav
    have hw0 : 0 ≤ min (tv / (vol * 3)) 1 :=
      le_min (div_nonneg htv h3.le) zero_le_one
    have hw1 : min (tv / (vol * 3)) 1 ≤ 1 := min_le_right _ _
    simp only [Momentic._size_positions, if_neg hav]
    split_ifs <;> refine ⟨?_, ?_, ?_, ?_⟩ <;> linarith

/-- C1 (amended): for every run whose settings carry a nonnegative
`target_vol` — which includes the built-in default `0.12`; `load_settings`
merges overrides without range validation, so a negative override escapes the
invariant (see the counterexample) — the resolved long, short, and cash
weights of the engine's weight-resolution step sum to exactly `1`, and the
cash weight is `clamp(1 - (long + short), 0, 1)`. -/
theorem resolved_weights_sum_one (vol : ℚ) (regime : Momentic.Regime)
    (tl ts : Bool) (tv ml ms : ℚ) (htv : 0 ≤ tv) :
    (Momentic.resolved_weights vol regime tl ts tv ml ms).1 +
      (Momentic.resolved_weights vol regime tl ts tv ml ms).2.1 +
      (Momentic.resolved_weights vol regime tl ts tv ml ms).2.2 = 1 ∧
    (Momentic.resolved_weights vol regime tl ts tv ml ms).2.2 =
      Momentic.clamp
        (1 - ((Momentic.resolved_weights vol regime tl ts tv ml ms).1 +
          (Momentic.resolved_weights vol regime tl ts tv ml ms).2.1)) 0 1 := by
  refine ⟨?_, rfl⟩
  obtain ⟨h1, h2, h3, h4⟩ := size_positions_bounds vol regime tl ts htv
  obtain ⟨hs0, hs1⟩ := resolve_conflict_sum_bounds h1 h2 h3 h4 ml ms
  simp only [Momentic.resolved_weights, Momentic.clamp]
  rw [min_eq_left (by linarith), max_eq_right (by linarith)]
  ring

/-- Witness for C1's amended theorem at the spec's end-to-end example:
realized volatility 10%, LOW_VOL, long gate open, default `target_vol = 0.12`
(so `weight = min(0.12/0.30, 1) = 0.40`): the weights sum to `1` and the cash
weight is the clamp of the residual. -/
theorem resolved_weights_sum_one_witness :
    (Momentic.resolved_weights (1 / 10) .LOW_VOL true false (12 / 100)
        (171 / 1000) 0).1 +
      (Momentic.resolved_weights (1 / 10) .LOW_VOL true false (12 / 100)
        (171 / 1000) 0).2.1 +
      (Momentic.resolved_weights (1 / 10) .LOW_VOL true false (12 / 100)
        (171 / 1000) 0).2.2 = 1 ∧
    (Momentic.resolved_weights (1 / 10) .LOW_VOL true false (12 / 100)
        (171 / 1000) 0).2.2 =
      Momentic.clamp
        (1 - ((Momentic.resolved_weights (1 / 10) .LOW_VOL true false (12 / 100)
          (171 / 1000) 0).1 +
          (Momentic.resolved_weights (1 / 10) .LOW_VOL true false (12 / 100)
            (171 / 1000) 0).2.1)) 0 1 :=
  resolved_weights_sum_one (1 / 10) .LOW_VOL true false (12 / 100) (171 / 1000) 0
    (by norm_num)

/-- C1 counterexample: the claim as stated fails on a producible run.
`load_settings` merges settings overrides with no range validation, so a
settings file with `target_vol: -1` reaches `_size_positions` unchanged; with
realized volatility 10% (`asset_vol = 0.3 > 0`), an open long gate and the
short gate closed, the sized long weight is `min(-1/0.3, 1) = -10/3`, conflict
resolution leaves it alone, the cash weight clamps to `1`, and the three
weights sum to `-7/3 ≠ 1`. -/
theorem resolved_weights_sum_counterexample :
    (Momentic.resolved_weights (1 / 10) .LOW_VOL true false (-1) 0 0).1 +
      (Momentic.resolved_weights (1 / 10) .LOW_VOL true false (-1) 0 0).2.1 +
      (Momentic.resolved_weights (1 / 10) .LOW_VOL true false (-1) 0 0).2.2 ≠
      1 := by
  have hne : (Momentic.Regime.LOW_VOL = Momentic.Regime.HIGH_VOL) = False := by
    simp
  norm_num [Momentic.resolved_weights, Momentic._size_positions,
    Momentic._resolve_conflict, Momentic.clamp, min_def, max_def, hne]

/-- `_complement` satisfies the complement-pair invariant against the value it
was computed from (helper for C9). -/
lemma complement_pair (v : Option ℝ) :
    Momentic.complementPair v (Momentic._complement v) := by
  cases v with
  | none => simp [Momentic.complementPair, Momentic._complement]
  | some x =>
    refine ⟨by simp [Momentic._complement], ?_⟩
    intro a b ha hb
    rw [Option.some_inj] at ha
    simp only [Momentic._complement, Option.some_inj] at hb
    rw [← ha, ← hb]
    ring

/-- C9: in every feature row assembled by `_build_feature_row`, each of the
four logistic-transformed features has its paired complement column present
exactly when the base value is present, and present pairs sum to exactly
`1.0`. -/
theorem feature_row_complements (closes : List (ℕ × ℚ)) (index : ℕ)
    (ma50s ma120s ma280s : List (ℕ × Option ℚ)) :
    Momentic.complementPair
      (Momentic._build_feature_row closes index ma50s ma120s ma280s).logistic_ma_spread_50_120
      (Momentic._build_feature_row closes index ma50s ma120s ma280s).logistic_ma_spread_50_120_complement ∧
    Momentic.complementPair
      (Momentic._build_feature_row closes index ma50s ma120s ma280s).logistic_ma_spread_50_280
      (Momentic._build_feature_row closes index ma50s ma120s ma280s).logistic_ma_spread_50_280_complement ∧
    Momentic.complementPair
      (Momentic._build_feature_row closes index ma50s ma120s ma280s).logistic_return_scaled_21
      (Momentic._build_feature_row closes index ma50s ma120s ma280s).logistic_return_scaled_21_complement ∧
    Momentic.complementPair
      (Momentic._build_feature_row closes index ma50s ma120s ma280s).momentum_positive_bonus
      (Momentic._build_feature_row closes index ma50s ma120s ma280s).momentum_positive_bonus_complement :=
  ⟨complement_pair _, complement_pair _, complement_pair _, complement_pair _⟩

/-- Witness for C9 on a concrete row (MA50 = 2, MA120 = 1 at index 0): the
present 50/120 spread value and its complement column sum to `1`. -/
theorem feature_row_complements_witness :
    Momentic.sigmoid (((2 - 1) / (1 * (5 / 100)) : ℚ) : ℝ) +
      (1 - Momentic.sigmoid (((2 - 1) / (1 * (5 / 100)) : ℚ) : ℝ)) = 1 := by
  refine (feature_row_complements [] 0 [(0, some 2)] [(0, some 1)] []).1.2
    (Momentic.sigmoid (((2 - 1) / (1 * (5 / 100)) : ℚ) : ℝ))
    (1 - Momentic.sigmoid (((2 - 1) / (1 * (5 / 100)) : ℚ) : ℝ)) ?_ ?_ <;>
    norm_num [Momentic._build_feature_row, Momentic._logistic_spread,
      Momentic._complement, Momentic.logistic_spread_scaled, Except.toOption]

/-- The list of daily returns is one shorter than the price list (helper for
C10). -/
lemma daily_returns_length (prices : List ℚ) :
    (Momentic.daily_returns prices).length = prices.length - 1 := by
  simp only [Momentic.daily_returns, List.length_map, List.length_zip,
    List.length_tail]
  omega

/-- Pointwise description of `daily_returns` (helper for C10). -/
lemma daily_returns_getD (prices : List ℚ) (i : ℕ)
    (h : i + 1 < prices.length) :
    (Momentic.daily_returns prices).getD i 0 =
      if prices.getD i 0 = 0 then 0
      else prices.getD (i + 1) 0 / prices.getD i 0 - 1 := by
  have h1 : i < (Momentic.daily_returns prices).length := by
    rw [daily_returns_length]; omega
  rw [List.getD_eq_getElem _ _ h1,
    List.getD_eq_getElem _ _ (by omega : i < prices.length),
    List.getD_eq_getElem _ _ (by omega : i + 1 < prices.length)]
  simp only [Momentic.daily_returns, List.getElem_map, List.getElem_zip,
    List.getElem_tail]

/-- `annualized_volatility` at the default window succeeds on every price
series (helper for C10). -/
lemma annualized_volatility_isOk (prices : List ℚ) :
    ∃ v, Momentic.annualized_volatility prices 63 252 = .ok v := by
  simp only [Momentic.annualized_volatility]
  split_ifs with h
  · exact ⟨0, rfl⟩
  · have hstd : Momentic.rolling_std (Momentic.daily_returns prices) 63 =
        .ok (Momentic.rollingStdLoop (63 : ℤ).toNat []
          (Momentic.daily_returns prices)) := by
      unfold Momentic.rolling_std
      rw [if_neg (by norm_num)]
    rw [hstd]
    show ∃ v,
      (if Momentic.rollingStdLoop (63 : ℤ).toNat []
            (Momentic.daily_returns prices) = []
        then Except.ok 0
        else Except.ok ((Momentic.rollingStdLoop (63 : ℤ).toNat []
          (Momentic.daily_returns prices)).getLastD 0 *
            Real.sqrt ((252 : ℕ) : ℝ))) = Except.ok v
    split_ifs with h2
    · exact ⟨0, rfl⟩
    · exact ⟨_, rfl⟩

/-- C10: `daily_returns` is total — a zero previous price yields a `0.0`
return for that step — unlike `percentage_change`, which errors on a zero
previous value; consequently `annualized_volatility` (and so
`realized_volatility`) at the default 63-day window never raises a
division-by-zero error on any price series, zeros included. -/
theorem daily_returns_total_volatility_safe :
    (∀ (prices : List ℚ) (i : ℕ), i + 1 < prices.length →
      prices.getD i 0 = 0 → (Momentic.daily_returns prices).getD i 0 = 0) ∧
    (∀ current : ℚ, ∃ e, Momentic.percentage_change current 0 = .error e) ∧
    (∀ prices : List ℚ, ∃ v, Momentic.annualized_volatility prices 63 252 = .ok v) ∧
    (∀ prices : List ℚ, ∃ v, Momentic.realized_volatility prices 63 = .ok v) := by
  refine ⟨?_, ?_, annualized_volatility_isOk, ?_⟩
  · intro prices i h h0
    rw [daily_returns_getD _ _ h, if_pos h0]
  · intro current
    exact ⟨_, rfl⟩
  · intro prices
    unfold Momentic.realized_volatility
    split_ifs with h
    · exact ⟨0, rfl⟩
    · exact annualized_volatility_isOk prices

/-- Witness for C10: on the series `[0, 5]` the first return step is `0.0`
(the zero previous price does not raise). -/
theorem daily_returns_total_volatility_safe_witness :
    (Momentic.daily_returns [0, 5]).getD 0 0 = 0 :=
  daily_returns_total_volatility_safe.1 [0, 5] 0 (by norm_num) rfl

/-- The drawdown series has the same length as the input (helper for C7). -/
lemma ddLoop_length (l : List ℚ) :
    ∀ peak, (Momentic.ddLoop peak l).length = l.length := by
  induction l with
  | nil => intro peak; rfl
  | cons v rest ih =>
    intro peak
    simp only [Momentic.ddLoop, List.length_cons, ih]

/-- Pointwise description of the drawdown loop: entry `i` compares the value
against the running maximum of the prefix (seeded with `peak`) and divides
only when that maximum is positive (helper for C7). -/
lemma ddLoop_getD (l : List ℚ) :
    ∀ (peak : WithBot ℚ) (i : ℕ), i < l.length →
      (Momentic.ddLoop peak l).getD i 0 =
        if 0 < (l.take (i + 1)).foldl (fun (a : WithBot ℚ) (v : ℚ) => max a (v : WithBot ℚ)) peak
        then l.getD i 0 /
          ((l.take (i + 1)).foldl (fun (a : WithBot ℚ) (v : ℚ) => max a (v : WithBot ℚ))
            peak).unbot' 0 - 1
        else 0 := by
  induction l with
  | nil => intro peak i hi; simp at hi
  | cons v rest ih =>
    intro peak i hi
    cases i with
    | zero =>
      simp only [Momentic.ddLoop, List.getD_cons_zero, List.take_succ_cons,
        List.take_zero, List.foldl_cons, List.foldl_nil]
    | succ j =>
      have hj : j < rest.length := by simpa using hi
      simp only [Momentic.ddLoop, List.getD_cons_succ, List.take_succ_cons,
        List.foldl_cons]
      exact ih (max peak (v : WithBot ℚ)) j hj

/-- Every drawdown entry is nonpositive, whatever the seed peak (helper for
C7). -/
lemma ddLoop_nonpos (l : List ℚ) :
    ∀ peak, ∀ x ∈ Momentic.ddLoop peak l, x ≤ 0 := by
  induction l with
  | nil => intro peak x hx; simp [Momentic.ddLoop] at hx
  | cons v rest ih =>
    intro peak x hx
    simp only [Momentic.ddLoop, List.mem_cons] at hx
    rcases hx with hx | hx
    · subst hx
      split_ifs with hp
    

      · obtain ⟨q, hq_eq, hq⟩ := WithBot.lt_iff_exists_coe.mp hp
        have hq0 : (0 : ℚ) < q := by exact_mod_cast hq
        have hvq : v ≤ q := by
          have hle := le_max_right peak (v : WithBot ℚ)
          rw [hq_eq] at hle
          exact_mod_cast hle
        rw [hq_eq, WithBot.unbot'_coe]
        have : v / q ≤ 1 := (div_le_one hq0).mpr hvq
        linarith
      · exact le_refl 0
    · exact ih (max peak (v : WithBot ℚ)) x hx

/-- The accumulated maximum is bounded by any bound of the seed and of the
list elements (helper for C7). -/
lemma foldl_max_le (l : List ℚ) :
    ∀ (init : WithBot ℚ) (M : ℚ), (∀ x ∈ l, x ≤ M) → init ≤ (M : WithBot ℚ) →
      l.foldl (fun (a : WithBot ℚ) (v : ℚ) => max a (v : WithBot ℚ)) init ≤ (M : WithBot ℚ) := by
  induction l with
  | nil => intro init M _ h; exact h
  | cons v rest ih =>
    intro init M hall hinit
    simp only [List.foldl_cons]
    refine ih _ M (fun x hx => hall x (List.mem_cons_of_mem _ hx)) ?_
    exact max_le hinit (by exact_mod_cast hall v (List.mem_cons_self _ _))

/-- Every list element bounds the accumulated maximum from below (helper for
C7). -/
lemma le_foldl_max (l : List ℚ) :
    ∀ (init : WithBot ℚ),
      (init ≤ l.foldl (fun (a : WithBot ℚ) (v : ℚ) => max a (v : WithBot ℚ)) init) ∧
      (∀ x ∈ l, (x : WithBot ℚ) ≤
        l.foldl (fun (a : WithBot ℚ) (v : ℚ) => max a (v : WithBot ℚ)) init) := by
  induction l with
  | nil => intro init; exact ⟨le_refl _, by simp⟩
  | cons v rest ih =>
    intro init
    simp only [List.foldl_cons]
    constructor
    · exact le_trans (le_max_left _ _) (ih (max init (v : WithBot ℚ))).1
    · intro x hx
      rcases List.mem_cons.mp hx with hx | hx
      · subst hx
        exact le_trans (le_max_right _ _) (ih (max init (x : WithBot ℚ))).1
      · exact (ih (max init (v : WithBot ℚ))).2 x hx

/-- When the value at `i` dominates its prefix, the running peak is exactly
that value (helper for C7). -/
lemma runningPeak_eq_self (values : List ℚ) (i : ℕ) (hi : i < values.length)
    (hmax : ∀ j, j ≤ i → values.getD j 0 ≤ values.getD i 0) :
    Momentic.runningPeak values i = ((values.getD i 0 : ℚ) : WithBot ℚ) := by
  have hlen : (values.take (i + 1)).length = i + 1 := by
    simp [List.length_take]
    omega
  refine le_antisymm ?_ ?_
  · refine foldl_max_le _ _ _ ?_ bot_le
    intro x hx
    obtain ⟨j, hj, hjx⟩ := List.mem_iff_getElem.mp hx
    have hj' : j ≤ i := by
      rw [hlen] at hj
      omega
    have hjlen : j < values.length := by omega
    rw [← hjx, List.getElem_take]
    rw [← List.getD_eq_getElem values 0 hjlen]
    exact hmax j hj'
  · have hmem : values.getD i 0 ∈ values.take (i + 1) := by
      have hi' : i < (values.take (i + 1)).length := by omega
      have := List.getElem_mem hi'
      rwa [List.getElem_take, ← List.getD_eq_getElem values 0 hi] at this
    exact (le_foldl_max (values.take (i + 1)) ⊥).2 _ hmem

/-- C7: `drawdown_vs_peak` preserves length; entry `i` is
`value[i]/peak[i] - 1` when the running peak is positive and `0` when it is
`≤ 0`; every entry is `≤ 0`; the entry is `0` wherever the value is a running
maximum; and on a monotonically increasing positive series the whole drawdown
series is `0`. -/
theorem drawdown_vs_peak_spec (values : List ℚ) :
    (Momentic.drawdown_vs_peak values).length = values.length ∧
    (∀ i, i < values.length →
      (Momentic.drawdown_vs_peak values).getD i 0 =
        if 0 < Momentic.runningPeak values i
        then values.getD i 0 / (Momentic.runningPeak values i).unbot' 0 - 1
        else 0) ∧
    (∀ x ∈ Momentic.drawdown_vs_peak values, x ≤ 0) ∧
    (∀ i, i < values.length →
      (∀ j, j ≤ i → values.getD j 0 ≤ values.getD i 0) →
      (Momentic.drawdown_vs_peak values).getD i 0 = 0) ∧
    (values.Pairwise (· ≤ ·) → (∀ x ∈ values, 0 < x) →
      ∀ x ∈ Momentic.drawdown_vs_peak values, x = 0) := by
  have hform : ∀ i, i < values.length →
      (Momentic.drawdown_vs_peak values).getD i 0 =
        if 0 < Momentic.runningPeak values i
        then values.getD i 0 / (Momentic.runningPeak values i).unbot' 0 - 1
        else 0 :=
    fun i hi => ddLoop_getD values ⊥ i hi
  have hzero : ∀ i, i < values.length →
      (∀ j, j ≤ i → values.getD j 0 ≤ values.getD i 0) →
      (Momentic.drawdown_vs_peak values).getD i 0 = 0 := by
    intro i hi hmax
    rw [hform i hi, runningPeak_eq_self values i hi hmax]
    split_ifs with hp
    · have h0 : (0 : ℚ) < values.getD i 0 := by exact_mod_cast hp
      rw [WithBot.unbot'_coe, div_self (ne_of_gt h0)]
      ring
    · rfl
  refine ⟨ddLoop_length values ⊥, hform, ddLoop_nonpos values ⊥, hzero, ?_⟩
  intro hpw _ x hx
  obtain ⟨i, hi, hix⟩ := List.mem_iff_getElem.mp hx
  have hi' : i < values.length := by
    have hlen : (Momentic.drawdown_vs_peak values).length = values.length :=
      ddLoop_length values ⊥
    omega
  have hmax : ∀ j, j ≤ i → values.getD j 0 ≤ values.getD i 0 := by
    intro j hj
    rcases lt_or_eq_of_le hj with hj | hj
    · have hjlen : j < values.length := by omega
      rw [List.getD_eq_getElem values 0 hjlen, List.getD_eq_getElem values 0 hi']
      exact List.pairwise_iff_getElem.mp hpw j i hjlen hi' hj
    · subst hj; exact le_refl _
  rw [← hix, ← List.getD_eq_getElem _ 0 hi]
  exact hzero i hi' hmax

/-- Witness for C7: on the increasing series `[1, 2]` the drawdown at the
running maximum (index 1) is `0`. -/
theorem drawdown_vs_peak_spec_witness :
    (Momentic.drawdown_vs_peak [1, 2]).getD 1 0 = 0 :=
  (drawdown_vs_peak_spec [1, 2]).2.2.2.1 1 (by norm_num)
    (by intro j hj; interval_cases j <;> decide)

/-- The sigmoid is strictly positive (helper for C6). -/
lemma sigmoid_pos (x : ℝ) : 0 < Momentic.sigmoid x := by
  unfold Momentic.sigmoid
  positivity

/-- The sigmoid is strictly below one (helper for C6). -/
lemma sigmoid_lt_one (x : ℝ) : Momentic.sigmoid x < 1 := by
  unfold Momentic.sigmoid
  rw [div_lt_one (by positivity)]
  linarith [Real.exp_pos (-x)]

/-- The sigmoid of a nonpositive argument is at most one half (helper for
C6). -/
lemma sigmoid_le_half {x : ℝ} (hx : x ≤ 0) : Momentic.sigmoid x ≤ 1 / 2 := by
  unfold Momentic.sigmoid
  rw [div_le_div_iff₀ (by positivity) (by norm_num)]
  have h1 : (-x) + 1 ≤ Real.exp (-x) := Real.add_one_le_exp _
  linarith

/-- The floored, doubled, centered sigmoid score always lies in `[0, 1]`
(helper for C6). -/
lemma momentum_score_bounds (y : ℝ) :
    0 ≤ max ((Momentic.sigmoid y - 0.5) * 2) 0 ∧
      max ((Momentic.sigmoid y - 0.5) * 2) 0 ≤ 1 := by
  refine ⟨le_max_right _ _, max_le ?_ (by norm_num)⟩
  have := sigmoid_lt_one y
  linarith

/-- With two full lookback periods and non-zero division bases, the momentum
bonus computes the floored, doubled, centered sigmoid of the scaled return
acceleration (helper for C6). -/
lemma momentum_formula (closes : List (ℕ × ℚ)) (i : ℕ) (h1 : 42 ≤ i)
    (h3 : (closes.getD (i - 21) (0, 0)).2 ≠ 0)
    (h4 : (closes.getD (i - 42) (0, 0)).2 ≠ 0) :
    Momentic._momentum_positive_bonus closes i 21 (10 / 100) =
      some (max ((Momentic.sigmoid
        ((((((closes.getD i (0, 0)).2 - (closes.getD (i - 21) (0, 0)).2) /
              (closes.getD (i - 21) (0, 0)).2 -
            ((closes.getD (i - 21) (0, 0)).2 -
                (closes.getD (i - 42) (0, 0)).2) /
              (closes.getD (i - 42) (0, 0)).2) / (10 / 100)) : ℚ) : ℝ) -
        0.5) * 2) 0) := by
  have h42 : (21 : ℕ) * 2 = 42 := rfl
  unfold Momentic._momentum_positive_bonus
  rw [if_neg (by push_neg; exact ⟨by omega, by norm_num⟩)]
  rw [if_neg (by push_neg; exact ⟨h3, by rwa [h42]⟩)]
  simp only [Momentic.percentage_change, if_neg h3, if_neg (h42 ▸ h4 :
    (closes.getD (i - 21 * 2) (0, 0)).2 ≠ 0)]

/-- C6: the momentum bonus is absent below index 42; with non-zero lookback
closes it is the zero-floored, doubled, centered sigmoid of the 21-day return
acceleration scaled by `0.10`; any present value lies in `[0, 1]`; and a
decelerating (or negative-delta) momentum yields exactly `0`. -/
theorem momentum_positive_bonus_spec (closes : List (ℕ × ℚ)) (i : ℕ) :
    (i < 42 → Momentic._momentum_positive_bonus closes i 21 (10 / 100) = none) ∧
    (42 ≤ i → i < closes.length →
      (closes.getD (i - 21) (0, 0)).2 ≠ 0 →
      (closes.getD (i - 42) (0, 0)).2 ≠ 0 →
      Momentic._momentum_positive_bonus closes i 21 (10 / 100) =
        some (max ((Momentic.sigmoid
          ((((((closes.getD i (0, 0)).2 - (closes.getD (i - 21) (0, 0)).2) /
                (closes.getD (i - 21) (0, 0)).2 -
              ((closes.getD (i - 21) (0, 0)).2 -
                  (closes.getD (i - 42) (0, 0)).2) /
                (closes.getD (i - 42) (0, 0)).2) / (10 / 100)) : ℚ) : ℝ) -
          0.5) * 2) 0)) ∧
    (∀ v, Momentic._momentum_positive_bonus closes i 21 (10 / 100) = some v →
      0 ≤ v ∧ v ≤ 1) ∧
    (42 ≤ i →
      (closes.getD (i - 21) (0, 0)).2 ≠ 0 →
      (closes.getD (i - 42) (0, 0)).2 ≠ 0 →
      ((closes.getD i (0, 0)).2 - (closes.getD (i - 21) (0, 0)).2) /
          (closes.getD (i - 21) (0, 0)).2 ≤
        ((closes.getD (i - 21) (0, 0)).2 - (closes.getD (i - 42) (0, 0)).2) /
          (closes.getD (i - 42) (0, 0)).2 →
      Momentic._momentum_positive_bonus closes i 21 (10 / 100) = some 0) := by
  have h42 : (21 : ℕ) * 2 = 42 := rfl
  refine ⟨?_, fun h1 _ h3 h4 => momentum_formula closes i h1 h3 h4, ?_, ?_⟩
  · intro h
    unfold Momentic._momentum_positive_bonus
    rw [if_pos (Or.inl (by omega))]
  · intro v hv
    by_cases h1 : i < 42
    · rw [show Momentic._momentum_positive_bonus closes i 21 (10 / 100) = none by
        unfold Momentic._momentum_positive_bonus
        rw [if_pos (Or.inl (by omega))]] at hv
      exact absurd hv (by simp)
    · push_neg at h1
      by_cases h3 : (closes.getD (i - 21) (0, 0)).2 = 0
      · rw [show Momentic._momentum_positive_bonus closes i 21 (10 / 100) = none by
          unfold Momentic._momentum_positive_bonus
          rw [if_neg (by push_neg; exact ⟨by omega, by norm_num⟩),
            if_pos (Or.inl h3)]] at hv
        exact absurd hv (by simp)
      · by_cases h4 : (closes.getD (i - 42) (0, 0)).2 = 0
        · rw [show Momentic._momentum_positive_bonus closes i 21 (10 / 100) = none by
            unfold Momentic._momentum_positive_bonus
            rw [if_neg (by push_neg; exact ⟨by omega, by norm_num⟩),
              if_pos (Or.inr (h42 ▸ h4 :
                (closes.getD (i - 21 * 2) (0, 0)).2 = 0))]] at hv
          exact absurd hv (by simp)
        · rw [momentum_formula closes i h1 h3 h4, Option.some_inj] at hv
          rw [← hv]
          exact momentum_score_bounds _
  · intro h1 h3 h4 hdec
    rw [momentum_formula closes i h1 h3 h4, Option.some_inj]
    have hmc : ((((closes.getD i (0, 0)).2 - (closes.getD (i - 21) (0, 0)).2) /
          (closes.getD (i - 21) (0, 0)).2 -
        ((closes.getD (i - 21) (0, 0)).2 - (closes.getD (i - 42) (0, 0)).2) /
          (closes.getD (i - 42) (0, 0)).2) / (10 / 100) : ℚ) ≤ 0 :=
      div_nonpos_iff.mpr (Or.inr ⟨sub_nonpos.mpr hdec, by norm_num⟩)
    have hs := sigmoid_le_half
      (show (((((closes.getD i (0, 0)).2 - (closes.getD (i - 21) (0, 0)).2) /
          (closes.getD (i - 21) (0, 0)).2 -
        ((closes.getD (i - 21) (0, 0)).2 - (closes.getD (i - 42) (0, 0)).2) /
          (closes.getD (i - 42) (0, 0)).2) / (10 / 100) : ℚ) : ℝ) ≤ 0
        from by exact_mod_cast hmc)
    rw [max_eq_right (by linarith)]

/-- Witness for C6: on 43 constant closes the 21-day momentum delta is zero
(not accelerating), so the bonus at index 42 is exactly `0`. -/
theorem momentum_positive_bonus_spec_witness :
    Momentic._momentum_positive_bonus
      ((List.range 43).map fun j => (j, (1 : ℚ))) 42 21 (10 / 100) =
      some 0 :=
  (momentum_positive_bonus_spec
      ((List.range 43).map fun j => (j, (1 : ℚ))) 42).2.2.2
    (by norm_num) (by decide) (by decide)
    (by
      have e0 : ((List.range 43).map fun j => (j, (1 : ℚ))).getD (42 - 42)
          (0, 0) = (0, 1) := by decide
      have e21 : ((List.range 43).map fun j => (j, (1 : ℚ))).getD (42 - 21)
          (0, 0) = (21, 1) := by decide
      have e42 : ((List.range 43).map fun j => (j, (1 : ℚ))).getD 42
          (0, 0) = (42, 1) := by decide
      rw [e0, e21, e42])

/-- One `maStep` keeps the buffer equal to the trailing-`w` suffix of the
prices seen so far and the rolling sum equal to its sum (helper for C4). -/
lemma maStep_eq (w : ℕ) (hw : 1 ≤ w) (P : List ℚ) (p : ℚ) :
    Momentic.maStep w (P.drop (P.length - w)) ((P.drop (P.length - w)).sum) p =
      ((P ++ [p]).drop ((P ++ [p]).length - w),
        ((P ++ [p]).drop ((P ++ [p]).length - w)).sum) := by
  unfold Momentic.maStep
  by_cases h : P.length < w
  · have h0 : P.length - w = 0 := by omega
    have h0' : (P ++ [p]).length - w = 0 := by
      simp only [List.length_append, List.length_cons, List.length_nil]
      omega
    rw [h0, h0']
    simp only [List.drop_zero]
    rw [if_neg (by
      simp only [List.length_append, List.length_cons, List.length_nil]
      omega)]
    simp [List.sum_append]
  · push_neg at h
    have hBlen : (P.drop (P.length - w)).length = w := by
      simp only [List.length_drop]
      omega
    obtain ⟨a, B, hB⟩ : ∃ a B, P.drop (P.length - w) = a :: B := by
      cases hD : P.drop (P.length - w) with
      | nil => rw [hD] at hBlen; simp at hBlen; omega
      | cons a B => exact ⟨a, B, rfl⟩
    have hBtail : B = P.drop (P.length - w + 1) := by
      rw [← List.tail_drop, hB, List.tail_cons]
    have hidx : (P ++ [p]).length - w = P.length - w + 1 := by
      simp only [List.length_append, List.length_cons, List.length_nil]
      omega
    have hdrop : (P ++ [p]).drop ((P ++ [p]).length - w) = B ++ [p] := by
      rw [hidx, List.drop_append_of_le_length (by omega), ← hBtail]
    have hBl : B.length + 1 = w := by
      rw [hB] at hBlen
      simpa using hBlen
    rw [hB, hdrop]
    rw [if_pos (by
      simp only [List.cons_append, List.length_cons, List.length_append,
        List.length_nil]
      omega)]
    rw [Prod.mk.injEq]
    refine ⟨?_, ?_⟩
    · rw [List.cons_append, List.tail_cons]
    · simp only [List.cons_append, List.headI_cons, List.sum_cons,
        List.sum_append, List.sum_nil]
      ring

/-- `maLoop` preserves the series length (helper for C4). -/
lemma maLoop_length (w : ℕ) (rest : List (ℕ × ℚ)) :
    ∀ (b : List ℚ) (s : ℚ), (Momentic.maLoop w b s rest).length = rest.length := by
  induction rest with
  | nil => intro b s; rfl
  | cons dp rest ih =>
    intro b s
    obtain ⟨d, p⟩ := dp
    simp only [Momentic.maLoop, List.length_cons, ih]

/-- Pointwise description of the moving-average loop, generalized over the
prefix `P` of prices already consumed (helper for C4). -/
lemma maLoop_getD (w : ℕ) (hw : 1 ≤ w) (rest : List (ℕ × ℚ)) :
    ∀ (P : List ℚ) (j : ℕ), j < rest.length →
      (Momentic.maLoop w (P.drop (P.length - w))
          ((P.drop (P.length - w)).sum) rest).getD j (0, none) =
        ((rest.getD j (0, 0)).1,
          if P.length + j + 1 < w then none
          else some (((P ++ (rest.map Prod.snd).take (j + 1)).drop
            ((P ++ (rest.map Prod.snd).take (j + 1)).length - w)).sum /
              (w : ℚ))) := by
  induction rest with
  | nil => intro P j hj; simp at hj
  | cons dp rest ih =>
    intro P j hj
    obtain ⟨d, p⟩ := dp
    simp only [Momentic.maLoop, maStep_eq w hw P p]
    cases j with
    | zero =>
      simp only [List.getD_cons_zero, List.map_cons, List.take_succ_cons,
        List.take_zero]
      have hlen : ((P ++ [p]).drop ((P ++ [p]).length - w)).length =
          min w (P.length + 1) := by
        simp only [List.length_drop, List.length_append, List.length_cons,
          List.length_nil]
        omega
      rcases lt_or_ge (P.length + 1) w with hlt | hge
      · rw [if_neg (by omega), if_pos (by omega)]
      · rw [if_pos (by omega), if_neg (by omega)]
    | succ j =>
      have hj' : j < rest.length := by simpa using hj
      have hcond : (P.length + (j + 1) + 1 < w) = ((P ++ [p]).length + j + 1 < w) := by
        simp only [List.length_append, List.length_cons, List.length_nil]
        congr 1
        omega
      have hlist : P ++ (p :: rest.map Prod.snd).take (j + 1 + 1) =
          (P ++ [p]) ++ (rest.map Prod.snd).take (j + 1) := by
        rw [List.take_succ_cons, ← List.append_cons]
      simp only [List.getD_cons_succ, List.map_cons, hcond, hlist]
      exact ih (P ++ [p]) j hj'

/-- C4: `moving_average` fails with the input-validation error for every
window `≤ 0`; for a positive window it succeeds, preserves the series length
and dates, yields `none` at the first `window - 1` positions, and at every
position `i ≥ window - 1` yields the arithmetic mean of the trailing
`window` closes ending at `i`. -/
theorem moving_average_spec (series : List (ℕ × ℚ)) (w : ℤ) :
    (w ≤ 0 → Momentic.moving_average series w =
      .error "window must be a positive integer") ∧
    (0 < w → ∃ out, Momentic.moving_average series w = .ok out ∧
      out.length = series.length ∧
      ∀ i, i < series.length →
        out.getD i (0, none) =
          ((series.getD i (0, 0)).1,
            if (i : ℤ) + 1 < w then none
            else some ((((series.map Prod.snd).take (i + 1)).drop
              (i + 1 - w.toNat)).sum / (w : ℚ)))) := by
  constructor
  · intro h
    unfold Momentic.moving_average
    rw [if_pos h]
  · intro hw
    by_cases hs : series = []
    · refine ⟨[], ?_, by simp [hs], ?_⟩
      · unfold Momentic.moving_average
        rw [if_neg (not_le.mpr hw), if_pos hs]
      · intro i hi
        rw [hs] at hi
        simp at hi
    · refine ⟨Momentic.maLoop w.toNat [] 0 series, ?_,
        maLoop_length w.toNat series [] 0, ?_⟩
      · unfold Momentic.moving_average
        rw [if_neg (not_le.mpr hw), if_neg hs]
      · intro i hi
        have hw1 : 1 ≤ w.toNat := by omega
        have h := maLoop_getD w.toNat hw1 series [] i hi
        simp only [List.drop_nil, List.sum_nil, List.length_nil,
          List.nil_append, Nat.zero_add, List.length_take,
          List.length_map] at h
        have hmin : min (i + 1) series.length = i + 1 := by omega
        rw [hmin] at h
        rw [h]
        have hc : (i + 1 < w.toNat) ↔ ((i : ℤ) + 1 < w) := by omega
        have hcast : ((w.toNat : ℕ) : ℚ) = (w : ℚ) := by
          have h1 : ((w.toNat : ℕ) : ℤ) = w := Int.toNat_of_nonneg (le_of_lt hw)
          exact_mod_cast congrArg (fun z : ℤ => (z : ℚ)) h1
        simp only [hc, hcast]

/-- Witness for C4 at the spec's example: window 3 over the closes
`[1, 2, 3, 4]` — the first two outputs are null and the later ones are the
trailing-3 means. -/
theorem moving_average_spec_witness :
    ∃ out, Momentic.moving_average
        [((0 : ℕ), (1 : ℚ)), (1, 2), (2, 3), (3, 4)] 3 = .ok out ∧
      out.length = [((0 : ℕ), (1 : ℚ)), (1, 2), (2, 3), (3, 4)].length ∧
      ∀ i, i < [((0 : ℕ), (1 : ℚ)), (1, 2), (2, 3), (3, 4)].length →
        out.getD i (0, none) =
          (([((0 : ℕ), (1 : ℚ)), (1, 2), (2, 3), (3, 4)].getD i (0, 0)).1,
            if (i : ℤ) + 1 < 3 then none
            else some (((([((0 : ℕ), (1 : ℚ)), (1, 2), (2, 3), (3, 4)].map
                Prod.snd).take (i + 1)).drop
              (i + 1 - (3 : ℤ).toNat)).sum / ((3 : ℤ) : ℚ))) :=
  (moving_average_spec [((0 : ℕ), (1 : ℚ)), (1, 2), (2, 3), (3, 4)] 3).2
    (by norm_num)

/-- In a list sorted by date, the last element's date bounds every member's
date (helper for C8). -/
lemma pairwise_le_getLastD {α : Type} (l : List (ℕ × α)) :
    ∀ (d : ℕ × α), List.Pairwise (fun a b : ℕ × α => a.1 ≤ b.1) l →
      ∀ x ∈ l, x.1 ≤ (l.getLastD d).1 := by
  induction l with
  | nil => intro d _ x hx; simp at hx
  | cons a rest ih =>
    intro d hp x hx
    rw [List.getLastD_cons]
    rcases List.mem_cons.mp hx with hx | hx
    · subst hx
      cases rest with
      | nil => exact le_refl _
      | cons b r2 =>
        have hab : x.1 ≤ b.1 := (List.pairwise_cons.mp hp).1 b (by simp)
        have hb := ih x (List.pairwise_cons.mp hp).2 b (by simp)
        omega
    · exact ih a (List.pairwise_cons.mp hp).2 x hx

/-- The defaulted last element of a nonempty list is a member (helper for
C8). -/
lemma getLastD_mem_cons {α : Type} (a : α) (rest : List α) (d : α) :
    (a :: rest).getLastD d ∈ a :: rest := by
  rw [List.getLastD_eq_getLast?, List.getLast?_eq_getLast _ (by simp),
    Option.getD_some]
  exact List.getLast_mem _

/-- After sorting the filtered rows by date, the last row's date is exactly
the target, provided every filtered date is `≤ target` and some filtered row
carries the target date (helper for C8). -/
lemma select_last_eq {α : Type} (x : ℕ × α) (xs : List (ℕ × α)) (target : ℕ)
    (hall : ∀ s ∈ x :: xs, s.1 ≤ target)
    (hmem : ∃ r ∈ x :: xs, r.1 = target) :
    ((((x :: xs).mergeSort fun a b => a.1 ≤ b.1)).getLastD x).1 = target := by
  have htrans : ∀ a b c : ℕ × α, (decide (a.1 ≤ b.1)) = true →
      (decide (b.1 ≤ c.1)) = true → (decide (a.1 ≤ c.1)) = true := by
    intro a b c hab hbc
    simp only [decide_eq_true_eq] at *
    omega
  have htotal : ∀ a b : ℕ × α,
      ((decide (a.1 ≤ b.1)) || (decide (b.1 ≤ a.1))) = true := by
    intro a b
    simp only [Bool.or_eq_true, decide_eq_true_eq]
    omega
  have hperm := List.mergeSort_perm (x :: xs) fun a b => decide (a.1 ≤ b.1)
  have hsorted := @List.sorted_mergeSort (ℕ × α)
    (fun a b => decide (a.1 ≤ b.1)) htrans htotal (x :: xs)
  have hsorted' : List.Pairwise (fun a b : ℕ × α => a.1 ≤ b.1)
      ((x :: xs).mergeSort fun a b => decide (a.1 ≤ b.1)) :=
    hsorted.imp (by intro a b h; simpa using h)
  obtain ⟨y, ys, hys⟩ : ∃ y ys,
      ((x :: xs).mergeSort fun a b => decide (a.1 ≤ b.1)) = y :: ys := by
    cases hM : (x :: xs).mergeSort fun a b => decide (a.1 ≤ b.1) with
    | nil =>
      have hlen := hperm.length_eq
      rw [hM] at hlen
      simp at hlen
    | cons y ys => exact ⟨y, ys, rfl⟩
  have hlast_mem :
      (((x :: xs).mergeSort fun a b => decide (a.1 ≤ b.1)).getLastD x) ∈
        ((x :: xs).mergeSort fun a b => decide (a.1 ≤ b.1)) := by
    rw [hys]
    exact getLastD_mem_cons y ys x
  have h1 := hall _ (hperm.mem_iff.mp hlast_mem)
  obtain ⟨r, hr, hrt⟩ := hmem
  have hr' : r ∈ ((x :: xs).mergeSort fun a b => decide (a.1 ≤ b.1)) :=
    hperm.mem_iff.mpr hr
  have h2 := pairwise_le_getLastD _ x hsorted' r hr'
  omega

/-- The filter at a target date carried by some row is nonempty, and the
last sorted filtered row carries exactly the target date (helper for C8). -/
lemma filtered_snapshot {α : Type} (rows : List (ℕ × α)) (target : ℕ)
    (hmem : ∃ r ∈ rows, r.1 = target) :
    ∃ x xs, rows.filter (fun pair => pair.1 ≤ target) = x :: xs ∧
      ((((x :: xs).mergeSort fun a b => a.1 ≤ b.1)).getLastD x).1 = target := by
  obtain ⟨r, hr, hrt⟩ := hmem
  have hrf : r ∈ rows.filter (fun pair => pair.1 ≤ target) := by
    rw [List.mem_filter]
    exact ⟨hr, by simp [hrt]⟩
  obtain ⟨x, xs, hxs⟩ : ∃ x xs,
      rows.filter (fun pair => pair.1 ≤ target) = x :: xs := by
    cases hF : rows.filter (fun pair => pair.1 ≤ target) with
    | nil => rw [hF] at hrf; simp at hrf
    | cons x xs => exact ⟨x, xs, rfl⟩
  refine ⟨x, xs, hxs, ?_⟩
  apply select_last_eq x xs target
  · intro s hs
    have hs' : s ∈ rows.filter (fun pair => pair.1 ≤ target) := hxs ▸ hs
    simpa using (List.mem_filter.mp hs').2
  · exact ⟨r, hxs ▸ hrf, hrt⟩

/-- C8: snapshot selection picks the row at the requested date when that
date is present, the row at the latest available date when no date is
requested, and fails with a data error (producing no row at all) when the
requested date lies strictly after the latest available date. -/
theorem select_snapshot_spec {α : Type} (rows : List (ℕ × α)) (latest : ℕ)
    (hmax : (rows.map Prod.fst).max? = some latest) :
    (∀ d, latest < d → Momentic.select_snapshot rows (some d) =
      .error "Requested date exceeds latest available") ∧
    (∃ r, Momentic.select_snapshot rows none = .ok r ∧ r.1 = latest) ∧
    (∀ d, d ∈ rows.map Prod.fst →
      ∃ r, Momentic.select_snapshot rows (some d) = .ok r ∧ r.1 = d) := by
  have hall_le : ∀ b ∈ rows.map Prod.fst, b ≤ latest :=
    (List.max?_le_iff (fun _ _ _ => max_le_iff) hmax).mp (le_refl latest)
  refine ⟨?_, ?_, ?_⟩
  · intro d hd
    simp only [Momentic.select_snapshot, hmax, if_pos hd]
  · have hlmem : latest ∈ rows.map Prod.fst :=
      List.max?_mem (fun _ _ => max_choice _ _) hmax
    obtain ⟨r0, hr0, hr0t⟩ := List.mem_map.mp hlmem
    obtain ⟨x, xs, hxs, hlast⟩ :=
      filtered_snapshot rows latest ⟨r0, hr0, hr0t⟩
    refine ⟨((x :: xs).mergeSort fun a b => a.1 ≤ b.1).getLastD x, ?_, hlast⟩
    simp only [Momentic.select_snapshot, hmax, hxs]
  · intro d hd
    have hdle : d ≤ latest := hall_le d hd
    obtain ⟨r0, hr0, hr0t⟩ := List.mem_map.mp hd
    obtain ⟨x, xs, hxs, hlast⟩ := filtered_snapshot rows d ⟨r0, hr0, hr0t⟩
    refine ⟨((x :: xs).mergeSort fun a b => a.1 ≤ b.1).getLastD x, ?_, hlast⟩
    simp only [Momentic.select_snapshot, hmax, if_neg (not_lt.mpr hdle), hxs]

/-- Witness for C8 on rows dated 1, 3, 2: requesting date 2 selects the row
dated 2. -/
theorem select_snapshot_spec_witness :
    ∃ r, Momentic.select_snapshot
        [((1 : ℕ), (10 : ℕ)), (3, 30), (2, 20)] (some 2) = .ok r ∧ r.1 = 2 :=
  (select_snapshot_spec [((1 : ℕ), (10 : ℕ)), (3, 30), (2, 20)] 3
    (by decide)).2.2 2 (by decide)
